import Mathlib

/-!
# Verification of the `blockminmax` point-cloud binning engine

This file is a shallow embedding, in Lean 4, of the coordinate-mapping and
cell-aggregation core of the `blockminmax` repository.  The authoritative
source is `src/blockminmax.c` (the native implementation); `src/blockminmax.tcl`
provides the legacy update rule, and `src/README.md` / `src/test_blockminmax.sh`
document and pin the behaviour of the `--gmtbin` and `--tclfmt` modes, which are
absent from the C file in `src/`.

The C program computes with IEEE doubles.  The embedding models the real-number
values of those doubles with `ℚ`, which is exact on all the grid arithmetic the
program performs, and models the non-finite values (`NaN`, `±infinity`) that
matter to the aggregation rule with an explicit datatype `F` whose comparison
operators mirror IEEE semantics (`NaN` compares false against everything).
-/

set_option autoImplicit false

attribute [local semireducible] Rat.add Rat.mul Rat.inv Rat.sub Rat.ofScientific

/-- A double as seen by the aggregation engine: NaN, `+infinity`, `-infinity`
or a finite value (modelled exactly by a rational). -/
inductive F where
  | nan
  | pinf
  | ninf
  | fin (q : ℚ)
deriving DecidableEq, Repr

/-- IEEE `<` on doubles: any comparison involving NaN is false;
`-infinity < finite < +infinity`. -/
def F.lt : F → F → Bool
  | .nan, _ => false
  | _, .nan => false
  | .pinf, _ => false
  | _, .pinf => true
  | .ninf, .ninf => false
  | .ninf, .fin _ => true
  | .fin _, .ninf => false
  | .fin a, .fin b => a < b

/-- IEEE `<=` on doubles: any comparison involving NaN is false. -/
def F.le : F → F → Bool
  | .nan, _ => false
  | _, .nan => false
  | .pinf, .pinf => true
  | .pinf, _ => false
  | _, .pinf => true
  | .ninf, _ => true
  | .fin _, .ninf => false
  | .fin a, .fin b => a ≤ b

/-- C's `llround`: round to the nearest integer, ties away from zero
(`llround(0.5) = 1`, `llround(-0.5) = -1`). -/
def llround (q : ℚ) : ℤ :=
  if q < 0 then -⌊-q + 1/2⌋ else ⌊q + 1/2⌋

/-- C's `lrint` in the default rounding mode: round to the nearest integer,
ties to the even integer (`lrint(0.5) = 0`, `lrint(1.5) = 2`). -/
def lrint (q : ℚ) : ℤ :=
  let f := ⌊q⌋
  let fr := q - (f : ℚ)
  if fr < 1/2 then f
  else if (1/2 : ℚ) < fr then f + 1
  else if 2 ∣ f then f else f + 1

/-- The options record of `blockminmax.c` (the fields the core engine reads). -/
structure Options where
  xmin : ℚ
  xmax : ℚ
  ymin : ℚ
  ymax : ℚ
  inc : ℚ
  find_min : Bool
  tcl_round : Bool
deriving Repr

/-- `blockminmax.c` line 221: `nx = floor((xmax - xmin)/inc + 0.5) + 1`. -/
def grid_nx (o : Options) : ℤ := ⌊(o.xmax - o.xmin) / o.inc + 1/2⌋ + 1

/-- `blockminmax.c` line 222: `ny = floor((ymax - ymin)/inc + 0.5) + 1`. -/
def grid_ny (o : Options) : ℤ := ⌊(o.ymax - o.ymin) / o.inc + 1/2⌋ + 1

/-- The `--tclround` per-axis index (lines 277-283 of `blockminmax.c`):
`f = floor(t)`, take `f + 1` only when the fractional part exceeds
`0.5 + 1e-12`, so exact half-ties go to the lower node. -/
def tclAxisIndex (t : ℚ) : ℤ :=
  let f := ⌊t⌋
  if t - (f : ℚ) > 1/2 + 1/10^12 then f + 1 else f

/-- Index clamping (lines 285-286 of `blockminmax.c`):
negatives snap to 0, indices `≥ n` snap to `n - 1`. -/
def clampIdx (i n : ℤ) : ℤ :=
  if i < 0 then 0 else if n ≤ i then n - 1 else i

/-- The coordinate mapper of `blockminmax.c` (lines 269-289): per-axis
nearest-node index (`llround` by default, the Tcl-style rule under
`--tclround`), then clamping into `[0, nx) × [0, ny)`. -/
def mapIndex (o : Options) (x y : ℚ) : ℤ × ℤ :=
  let ixr := if o.tcl_round then tclAxisIndex ((x - o.xmin) / o.inc)
             else llround ((x - o.xmin) / o.inc)
  let iyr := if o.tcl_round then tclAxisIndex ((y - o.ymin) / o.inc)
             else llround ((y - o.ymin) / o.inc)
  (clampIdx ixr (grid_nx o), clampIdx iyr (grid_ny o))

/-- Linearised cell index, `idx = ix + nx * iy` (line 290 of `blockminmax.c`). -/
def cellIndexOf (o : Options) (x y : ℚ) : ℤ :=
  (mapIndex o x y).1 + grid_nx o * (mapIndex o x y).2

/-- The sentinel a cell starts from (line 238 of `blockminmax.c`):
`+infinity` in minimum mode, `-infinity` in maximum mode. -/
def presetF (find_min : Bool) : F := if find_min then F.pinf else F.ninf

/-- One cell update, lines 292-297 of `blockminmax.c`: replace the stored
value when the cell is unvisited or the new `z` wins the IEEE comparison
(`z < grid[idx]` in minimum mode, `z > grid[idx]` in maximum mode), then
set the hit flag unconditionally. -/
def cellUpdate (find_min : Bool) (c : F × Bool) (z : F) : F × Bool :=
  let repl := !c.2 || (if find_min then F.lt z c.1 else F.lt c.1 z)
  (if repl then z else c.1, true)

/-- The engine state: per-cell aggregate and hit flag, indexed by the
linearised cell index. -/
structure GridState where
  grid : ℤ → F
  hit : ℤ → Bool

/-- Fresh state (lines 233-240 of `blockminmax.c`): every cell holds the
sentinel and is unhit. -/
def initState (o : Options) : GridState :=
  { grid := fun _ => presetF o.find_min, hit := fun _ => false }

/-- Processing one already-parsed point (lines 269-297 of `blockminmax.c`). -/
def step (o : Options) (s : GridState) (p : ℚ × ℚ × F) : GridState :=
  let idx := cellIndexOf o p.1 p.2.1
  let c := cellUpdate o.find_min (s.grid idx, s.hit idx) p.2.2
  { grid := fun j => if j = idx then c.1 else s.grid j,
    hit := fun j => if j = idx then c.2 else s.hit j }

/-- The streaming pass over a list of already-parsed points. -/
def runPoints (o : Options) (ps : List (ℚ × ℚ × F)) : GridState :=
  ps.foldl (step o) (initState o)

/-- The per-cell view of the streaming pass: the sequence of `z` values a run
routes to one cell, folded through `cellUpdate` from the sentinel, unhit
state. -/
def cellRun (find_min : Bool) (zs : List F) : F × Bool :=
  zs.foldl (cellUpdate find_min) (presetF find_min, false)

/-- The `z` values of the points a run routes to cell `idx`, in order. -/
def routedZ (o : Options) (idx : ℤ) (ps : List (ℚ × ℚ × F)) : List F :=
  ps.filterMap (fun p => if cellIndexOf o p.1 p.2.1 = idx then some p.2.2 else none)

/-- The output walk (lines 309-319 of `blockminmax.c`): row-major, outer loop
over `iy`, inner over `ix`, emitting only hit cells.  Each emitted record is
`(ix, iy, grid[idx])`; the printed coordinates are the derived
`xmin + ix*inc`, `ymin + iy*inc`. -/
def outputCells (o : Options) (s : GridState) : List (ℤ × ℤ × F) :=
  (List.range (grid_ny o).toNat).flatMap (fun (iy : ℕ) =>
    (List.range (grid_nx o).toNat).filterMap (fun (ix : ℕ) =>
      let idx : ℤ := (ix : ℤ) + grid_nx o * (iy : ℤ)
      if s.hit idx then some ((ix : ℤ), (iy : ℤ), s.grid idx) else none))

/-- The options of the end-to-end scenario: region `0..2 × 0..2`, spacing 1,
minimum mode, default addressing. -/
def scenarioOpts : Options :=
  { xmin := 0, xmax := 2, ymin := 0, ymax := 2, inc := 1,
    find_min := true, tcl_round := false }

/-- The four input points of the end-to-end scenario. -/
def scenarioPts : List (ℚ × ℚ × F) :=
  [(-49/100, -49/100, F.fin 5), (1/2, 1/2, F.fin 10),
   (2, 2, F.fin 9), (149/100, 49/100, F.fin 7)]

/-- A wider test region, `0..4 × 0..4` at spacing 1 (`nx = ny = 5`). -/
def wideOpts : Options :=
  { xmin := 0, xmax := 4, ymin := 0, ymax := 4, inc := 1,
    find_min := true, tcl_round := false }

/-! ## The legacy Tcl update rule

`src/blockminmax.tcl` stores each cell's aggregate as the original textual
`z` token (Tcl values are strings) and compares tokens numerically.  A token
is modelled as its text together with its numeric value. -/

/-- A Tcl value: the verbatim token text paired with its numeric reading. -/
structure Tok where
  text : String
  val : ℚ
deriving DecidableEq, Repr

/-- The default (non-`-FIXMIN`) update of `src/blockminmax.tcl`, lines
164-172: `if {$find_min && $z < $ar($x,$y)} { set ... } elseif {$z > $ar(...)}
{ set ... }`.  In minimum mode a smaller `z` replaces the stored value, but the
`elseif` also lets any larger `z` replace it; in maximum mode only the
`elseif` branch can fire. -/
def tclCellUpdate (find_min : Bool) (cur z : Tok) : Tok :=
  if find_min ∧ z.val < cur.val then z
  else if z.val > cur.val then z
  else cur

/-! ## The input-line layer

`blockminmax.c` reads one line at a time (lines 251-267): it skips leading
spaces/tabs, drops blank and `#` lines, and calls `strtod` three times,
skipping the line if any call fails.  `strtod` itself is part of the C
library; it is modelled here on its standard decimal behaviour (optional
whitespace, optional sign, digits with an optional fraction and exponent,
case-insensitive `inf`/`infinity`/`nan`).  Hexadecimal floats, `nan(...)`
payloads and out-of-range (`ERANGE`) inputs are outside the model. -/

/-- `isspace` for the characters `strtod` skips. -/
def isSpaceC (c : Char) : Bool :=
  c = ' ' || c = '\t' || c = '\n' || c = '\r' || c = '\x0b' || c = '\x0c'

/-- Take the longest prefix of decimal digits, returning their values and
the rest of the input. -/
def takeDigits : List Char → List ℕ × List Char
  | [] => ([], [])
  | c :: r =>
    if '0' ≤ c ∧ c ≤ '9' then
      let p := takeDigits r
      ((c.toNat - 48) :: p.1, p.2)
    else ([], c :: r)

/-- The natural number denoted by a digit-value list (most significant first). -/
def digitsVal (ds : List ℕ) : ℕ := ds.foldl (fun a d => 10 * a + d) 0

/-- Lower-case a single ASCII letter. -/
def lowerC (c : Char) : Char :=
  if 'A' ≤ c ∧ c ≤ 'Z' then Char.ofNat (c.toNat + 32) else c

/-- Case-insensitive prefix match: `matchCI pat s` returns the rest of `s`
when `s` starts with `pat` (given in lower case). -/
def matchCI : List Char → List Char → Option (List Char)
  | [], s => some s
  | _, [] => none
  | p :: ps, c :: cs => if lowerC c = p then matchCI ps cs else none

/-- An optional leading sign; returns whether it was `-` and the rest. -/
def parseSign : List Char → Bool × List Char
  | '-' :: r => (true, r)
  | '+' :: r => (false, r)
  | r => (false, r)

/-- An optional exponent part `e[+-]digits`; like `strtod`, a lone `e` (or
`e` with a sign but no digits) is not consumed. -/
def parseExp (s : List Char) : ℤ × List Char :=
  match s with
  | c :: r =>
    if c = 'e' ∨ c = 'E' then
      let sg := parseSign r
      let ds := takeDigits sg.2
      if ds.1 = [] then (0, s)
      else ((if sg.1 then -(digitsVal ds.1 : ℤ) else (digitsVal ds.1 : ℤ)), ds.2)
    else (0, s)
  | [] => (0, [])

/-- Scale a mantissa by a signed power of ten (exact in `ℚ`). -/
def applyExp (m : ℚ) (e : ℤ) : ℚ :=
  if 0 ≤ e then m * 10 ^ e.toNat else m / 10 ^ (-e).toNat

/-- The `strtod` model: returns the parsed value and the rest of the input,
or `none` when no number could be parsed (in C: `end == p`). -/
def parseNum (s : List Char) : Option (F × List Char) :=
  let s1 := s.dropWhile isSpaceC
  let sg := parseSign s1
  match matchCI "infinity".toList sg.2 with
  | some r => some (if sg.1 then F.ninf else F.pinf, r)
  | none =>
  match matchCI "inf".toList sg.2 with
  | some r => some (if sg.1 then F.ninf else F.pinf, r)
  | none =>
  match matchCI "nan".toList sg.2 with
  | some r => some (F.nan, r)
  | none =>
    let ip := takeDigits sg.2
    let fp :=
      match ip.2 with
      | '.' :: r => takeDigits r
      | r => ([], r)
    if ip.1 = [] ∧ fp.1 = [] then none
    else
      let mant : ℚ := (digitsVal ip.1 : ℚ) + (digitsVal fp.1 : ℚ) / 10 ^ fp.1.length
      let ex := parseExp fp.2
      some (F.fin (applyExp (if sg.1 then -mant else mant) ex.1), ex.2)

/-- One input line, lines 251-267 of `blockminmax.c`: skip leading spaces and
tabs; drop the line if it is then empty or starts with `\n` or `#`; otherwise
parse three numbers, dropping the line if any parse fails. -/
def processLine (l : List Char) : Option (F × F × F) :=
  let p := l.dropWhile (fun c => c = ' ' || c = '\t')
  match p with
  | [] => none
  | c :: _ =>
    if c = '\n' ∨ c = '#' then none
    else
      match parseNum p with
      | none => none
      | some (x, r1) =>
        match parseNum r1 with
        | none => none
        | some (y, r2) =>
          match parseNum r2 with
          | none => none
          | some (z, _) => some (x, y, z)

/-- The blank/comment test of lines 252-255 of `blockminmax.c`: after
skipping spaces and tabs the line is exhausted, or starts with a newline or
`#`. -/
def isCommentOrBlank (l : List Char) : Bool :=
  match l.dropWhile (fun c => c = ' ' || c = '\t') with
  | [] => true
  | c :: _ => c = '\n' || c = '#'

/-- Processing one raw input line.  A line that parses to three finite-
coordinate numbers is aggregated; a skipped line leaves the state untouched.
(When a parsed `x` or `y` is NaN or infinite the C program feeds it through
`llround`, whose result is then unspecified by the C standard; such lines are
modelled as no-ops and no claim is settled against that branch.) -/
def lineStep (o : Options) (s : GridState) (l : List Char) : GridState :=
  match processLine l with
  | some (F.fin x, F.fin y, z) => step o s (x, y, z)
  | _ => s

/-- The streaming pass over raw input lines. -/
def runLines (o : Options) (ls : List (List Char)) : GridState :=
  ls.foldl (lineStep o) (initState o)

/-! ## The gridline-registration (`--gmtbin`) strategy

The `--gmtbin` mode is documented in `src/README.md` and exercised by
`src/test_blockminmax.sh`, but the C file under `src/` does not implement it
(its `parse_args` rejects the flag as an unknown option).  It is therefore
modelled here from the specification and from the repository's own README
and reference outputs. -/

/-- Modelled from the spec: the Gridline-Registration-Reject coordinate
mapper (`--gmtbin`), absent from `src/blockminmax.c`.  Per `src/README.md`:
`col = lrint((x - xmin)/dx)`, `row = ny - 1 - lrint((y - ymin)/dy)`, and
points with `row`/`col` outside `[0, ny)`/`[0, nx)` are dropped.  `lrint`
rounds ties to even, which is what the repository's reference output in
`src/test_blockminmax.sh` pins down for the half-tie point `(0.5, 0.5)`;
the spec's §4.2.3 instead names round-half-away-from-zero, which that
reference output contradicts. -/
def gmtMap (o : Options) (x y : ℚ) : Option (ℤ × ℤ) :=
  let col := lrint ((x - o.xmin) / o.inc)
  let row := (grid_ny o - 1) - lrint ((y - o.ymin) / o.inc)
  if 0 ≤ col ∧ col < grid_nx o ∧ 0 ≤ row ∧ row < grid_ny o then some (col, row)
  else none

/-- Modelled from the spec: the Gridline-Registration-Reject mapper exactly
as the spec's §4.2.3 words it, with `round_half_away_from_zero` (C's
`llround`) in place of `lrint`.  Kept only to compare against `gmtMap` and
the repository's reference outputs. -/
def gmtMapHalfAway (o : Options) (x y : ℚ) : Option (ℤ × ℤ) :=
  let col := llround ((x - o.xmin) / o.inc)
  let row := (grid_ny o - 1) - llround ((y - o.ymin) / o.inc)
  if 0 ≤ col ∧ col < grid_nx o ∧ 0 ≤ row ∧ row < grid_ny o then some (col, row)
  else none

/-- Modelled from the spec: one `--gmtbin` point step.  A dropped point
leaves the state untouched; an accepted one updates cell `col + nx*row`
under the strict-improvement rule. -/
def gmtStep (o : Options) (s : GridState) (p : ℚ × ℚ × F) : GridState :=
  match gmtMap o p.1 p.2.1 with
  | none => s
  | some cr =>
    let idx := cr.1 + grid_nx o * cr.2
    let c := cellUpdate o.find_min (s.grid idx, s.hit idx) p.2.2
    { grid := fun j => if j = idx then c.1 else s.grid j,
      hit := fun j => if j = idx then c.2 else s.hit j }

/-- Modelled from the spec: the `--gmtbin` step under the spec's §4.2.3
rounding (`gmtMapHalfAway`); for comparison only. -/
def gmtStepHalfAway (o : Options) (s : GridState) (p : ℚ × ℚ × F) : GridState :=
  match gmtMapHalfAway o p.1 p.2.1 with
  | none => s
  | some cr =>
    let idx := cr.1 + grid_nx o * cr.2
    let c := cellUpdate o.find_min (s.grid idx, s.hit idx) p.2.2
    { grid := fun j => if j = idx then c.1 else s.grid j,
      hit := fun j => if j = idx then c.2 else s.hit j }

/-- Modelled from the spec: the `--gmtbin` streaming pass. -/
def runGmt (o : Options) (ps : List (ℚ × ℚ × F)) : GridState :=
  ps.foldl (gmtStep o) (initState o)

/-- Modelled from the spec: the `--gmtbin` streaming pass under the spec's
§4.2.3 rounding; for comparison only. -/
def runGmtHalfAway (o : Options) (ps : List (ℚ × ℚ × F)) : GridState :=
  ps.foldl (gmtStepHalfAway o) (initState o)

/-- Modelled from the spec: the `--gmtbin` output walk.  Occupied cells are
emitted with the reconstructed node coordinates `x = xmin + col*inc`,
`y = ymax - row*inc`. -/
def outputGmt (o : Options) (s : GridState) : List (ℚ × ℚ × F) :=
  (List.range (grid_ny o).toNat).flatMap (fun (row : ℕ) =>
    (List.range (grid_nx o).toNat).filterMap (fun (col : ℕ) =>
      let idx : ℤ := (col : ℤ) + grid_nx o * (row : ℤ)
      if s.hit idx then
        some (o.xmin + (col : ℚ) * o.inc, o.ymax - (row : ℚ) * o.inc, s.grid idx)
      else none))

/-- The reference `--gmtbin` output pinned by `src/test_blockminmax.sh`
(`ref_gmt.min`), read back as numeric triples. -/
def refGmtTriples : List (ℚ × ℚ × F) :=
  [(0, 0, F.fin 5), (1, 0, F.fin 7), (2, 2, F.fin 9)]

/-! ## The legacy-compatible (`--tclfmt`) output formatting

Likewise absent from the C file under `src/`: per `src/README.md`,
`--tclfmt` prints `x y` at `%.1f` and `z` as the original token string.
Modelled from the spec: the aggregator additionally retains the verbatim
`z` token of the winning write. -/

/-- Modelled from the spec: one token-retaining cell update.  The stored
token is updated exactly when the numeric aggregate is replaced, under the
same strict-improvement rule as `cellUpdate`. -/
def stepTok (find_min : Bool) (c : F × String × Bool) (z : F × String) :
    F × String × Bool :=
  let repl := !c.2.2 || (if find_min then F.lt z.1 c.1 else F.lt c.1 z.1)
  (if repl then z.1 else c.1, (if repl then z.2 else c.2.1, true))

/-- Modelled from the spec: the token of "the point that last determined the
stored aggregate" — scanning a routed sequence, the `z` token of the last
write that replaced the stored value, starting from value `v` with the hit
flag already set. -/
def lastDeterminerTok (find_min : Bool) (v : F) : List (F × String) → Option String
  | [] => none
  | z :: rest =>
    let repl := if find_min then F.lt z.1 v else F.lt v z.1
    let v' := if repl then z.1 else v
    match lastDeterminerTok find_min v' rest with
    | some t => some t
    | none => if repl then some z.2 else none

/-- A decimal digit rendered as its ASCII character. -/
def digitChar (d : ℕ) : Char := Char.ofNat (48 + d)

/-- Decimal digits of `n`, least significant first, by structural recursion
on a fuel bound (`n` itself suffices). -/
def natDigitsAux : ℕ → ℕ → List ℕ
  | 0, _ => []
  | _ + 1, 0 => []
  | fuel + 1, m + 1 => (m + 1) % 10 :: natDigitsAux fuel ((m + 1) / 10)

/-- Decimal digits of `n`, least significant first (`[]` for 0). -/
def natDigits (n : ℕ) : List ℕ := natDigitsAux n n

/-- A natural number rendered in decimal. -/
def natStr (n : ℕ) : String :=
  if n = 0 then "0" else String.mk (((natDigits n).map digitChar).reverse)

/-- Modelled from the spec: `%.1f` — render a value with exactly one
fractional digit (rounding to the nearest tenth; the exact tie behaviour of
`printf` on binary doubles is not observable on the grid coordinates this
formatter is applied to). -/
def fmt1 (q : ℚ) : String :=
  let n := llround (q * 10)
  (if n < 0 then "-" else "") ++ natStr (n.natAbs / 10) ++ "." ++
    String.mk [digitChar (n.natAbs % 10)]

/-- The token of the point that last determined a cell's aggregate over a
whole routed sequence: the first element writes unconditionally, and
`lastDeterminerTok` finds any later overriding write. -/
def lastWriterTok (find_min : Bool) : List (F × String) → Option String
  | [] => none
  | z :: rest => some ((lastDeterminerTok find_min z.1 rest).getD z.2)

/-- The token-retaining engine state for legacy formatting. -/
structure TokState where
  grid : ℤ → F
  tok : ℤ → String
  hitT : ℤ → Bool

/-- Modelled from the spec: fresh token-retaining state. -/
def initTokState (o : Options) : TokState :=
  { grid := fun _ => presetF o.find_min, tok := fun _ => "", hitT := fun _ => false }

/-- The `(z, token)` pairs of the points a run routes to cell `idx`. -/
def routedT (o : Options) (idx : ℤ) (ps : List (ℚ × ℚ × F × String)) :
    List (F × String) :=
  ps.filterMap (fun p => if cellIndexOf o p.1 p.2.1 = idx then some p.2.2 else none)

/-- Modelled from the spec: one point step of the token-retaining engine
(`--tclround --tclfmt`: Tcl-style addressing, token kept with the value). -/
def stepT (o : Options) (s : TokState) (p : ℚ × ℚ × F × String) : TokState :=
  let idx := cellIndexOf o p.1 p.2.1
  let c := stepTok o.find_min (s.grid idx, s.tok idx, s.hitT idx) p.2.2
  { grid := fun j => if j = idx then c.1 else s.grid j,
    tok := fun j => if j = idx then c.2.1 else s.tok j,
    hitT := fun j => if j = idx then c.2.2 else s.hitT j }

/-- Modelled from the spec: the token-retaining streaming pass. -/
def runPointsT (o : Options) (ps : List (ℚ × ℚ × F × String)) : TokState :=
  ps.foldl (stepT o) (initTokState o)

/-- Modelled from the spec: the legacy-compatible output walk — `x` and `y`
at `%.1f`, `z` as the retained verbatim token. -/
def legacyOutput (o : Options) (s : TokState) : List String :=
  (List.range (grid_ny o).toNat).flatMap (fun (iy : ℕ) =>
    (List.range (grid_nx o).toNat).filterMap (fun (ix : ℕ) =>
      let idx : ℤ := (ix : ℤ) + grid_nx o * (iy : ℤ)
      if s.hitT idx then
        some (fmt1 (o.xmin + (ix : ℚ) * o.inc) ++ " " ++
              fmt1 (o.ymin + (iy : ℚ) * o.inc) ++ " " ++ s.tok idx)
      else none))

/-! ## Order facts about `F` -/

theorem F.lt_imp_le {a b : F} (h : F.lt a b = true) : F.le a b = true := by
  cases a <;> cases b <;> simp_all [F.lt, F.le]
  linarith

theorem F.not_lt_imp_le {a b : F} (ha : a ≠ F.nan) (hb : b ≠ F.nan)
    (h : F.lt a b = false) : F.le b a = true := by
  cases a <;> cases b <;> simp_all [F.lt, F.le]

theorem F.le_trans {a b c : F} (h1 : F.le a b = true) (h2 : F.le b c = true) :
    F.le a c = true := by
  cases a <;> cases b <;> cases c <;> simp_all [F.le]
  linarith

theorem F.le_refl {a : F} (ha : a ≠ F.nan) : F.le a a = true := by
  cases a <;> simp_all [F.le]

/-! ## Clamping and grid-dimension facts -/

theorem clampIdx_mem {i n : ℤ} (hn : 1 ≤ n) : 0 ≤ clampIdx i n ∧ clampIdx i n < n := by
  unfold clampIdx; split_ifs <;> omega

theorem clampIdx_of_range {i n : ℤ} (h0 : 0 ≤ i) (h1 : i < n) : clampIdx i n = i := by
  unfold clampIdx; split_ifs <;> omega

theorem grid_nx_pos (o : Options) (hx : o.xmin < o.xmax) (hinc : 0 < o.inc) :
    1 ≤ grid_nx o := by
  have ht : 0 < (o.xmax - o.xmin) / o.inc := div_pos (by linarith) hinc
  have h0 : (0 : ℤ) ≤ ⌊(o.xmax - o.xmin) / o.inc + 1/2⌋ := Int.floor_nonneg.2 (by linarith)
  unfold grid_nx; omega

theorem grid_ny_pos (o : Options) (hy : o.ymin < o.ymax) (hinc : 0 < o.inc) :
    1 ≤ grid_ny o := by
  have ht : 0 < (o.ymax - o.ymin) / o.inc := div_pos (by linarith) hinc
  have h0 : (0 : ℤ) ≤ ⌊(o.ymax - o.ymin) / o.inc + 1/2⌋ := Int.floor_nonneg.2 (by linarith)
  unfold grid_ny; omega

theorem llround_of_nonneg {t : ℚ} (h : 0 ≤ t) : llround t = ⌊t + 1/2⌋ := by
  unfold llround; rw [if_neg (not_lt.2 h)]

theorem mapIndex_bounds (o : Options) (hx : o.xmin < o.xmax) (hy : o.ymin < o.ymax)
    (hinc : 0 < o.inc) (x y : ℚ) :
    0 ≤ (mapIndex o x y).1 ∧ (mapIndex o x y).1 < grid_nx o ∧
    0 ≤ (mapIndex o x y).2 ∧ (mapIndex o x y).2 < grid_ny o := by
  have h1 := clampIdx_mem (i := if o.tcl_round then tclAxisIndex ((x - o.xmin) / o.inc)
      else llround ((x - o.xmin) / o.inc)) (grid_nx_pos o hx hinc)
  have h2 := clampIdx_mem (i := if o.tcl_round then tclAxisIndex ((y - o.ymin) / o.inc)
      else llround ((y - o.ymin) / o.inc)) (grid_ny_pos o hy hinc)
  exact ⟨h1.1, h1.2, h2.1, h2.2⟩

/-! ## Per-cell fold facts -/

theorem cellUpdate_first (fm : Bool) (v z : F) :
    cellUpdate fm (v, false) z = (z, true) := rfl

theorem cellUpdate_hit (fm : Bool) (cur z : F) :
    cellUpdate fm (cur, true) z =
      (if (if fm then F.lt z cur else F.lt cur z) then z else cur, true) := by
  cases fm <;> rfl

theorem cellUpdate_hit_min (cur z : F) :
    cellUpdate true (cur, true) z = (if F.lt z cur then z else cur, true) := rfl

theorem cellUpdate_hit_max (cur z : F) :
    cellUpdate false (cur, true) z = (if F.lt cur z then z else cur, true) := rfl

theorem foldl_cellUpdate_true (fm : Bool) :
    ∀ (zs : List F) (c : F × Bool), c.2 = true → (zs.foldl (cellUpdate fm) c).2 = true
  | [], _, h => h
  | _ :: rest, c, _ => foldl_cellUpdate_true fm rest (cellUpdate fm c _) rfl

theorem foldl_cellUpdate_nan (fm : Bool) :
    ∀ zs : List F, zs.foldl (cellUpdate fm) (F.nan, true) = (F.nan, true)
  | [] => rfl
  | z :: rest => by
    have h : cellUpdate fm (F.nan, true) z = (F.nan, true) := by
      cases fm <;> cases z <;> rfl
    rw [List.foldl_cons, h]
    exact foldl_cellUpdate_nan fm rest

theorem foldl_cellUpdate_min_le :
    ∀ (zs : List F) (cur : F), cur ≠ F.nan → (∀ z ∈ zs, z ≠ F.nan) →
      F.le (zs.foldl (cellUpdate true) (cur, true)).1 cur = true ∧
      ∀ z ∈ zs, F.le (zs.foldl (cellUpdate true) (cur, true)).1 z = true
  | [], cur, hcur, _ => ⟨F.le_refl hcur, by simp⟩
  | z :: rest, cur, hcur, hz => by
    have hz0 : z ≠ F.nan := hz z (List.mem_cons_self z rest)
    have hzr : ∀ w ∈ rest, w ≠ F.nan := fun w hw => hz w (List.mem_cons_of_mem z hw)
    rw [List.foldl_cons, cellUpdate_hit_min]
    by_cases hlt : F.lt z cur = true
    · rw [if_pos hlt]
      obtain ⟨h1, h2⟩ := foldl_cellUpdate_min_le rest z hz0 hzr
      refine ⟨F.le_trans h1 (F.lt_imp_le hlt), ?_⟩
      intro w hw
      rcases List.mem_cons.1 hw with rfl | hw
      · exact h1
      · exact h2 w hw
    · rw [if_neg hlt]
      obtain ⟨h1, h2⟩ := foldl_cellUpdate_min_le rest cur hcur hzr
      refine ⟨h1, ?_⟩
      intro w hw
      rcases List.mem_cons.1 hw with rfl | hw
      · exact F.le_trans h1
          (F.not_lt_imp_le hz0 hcur (Bool.not_eq_true _ ▸ Bool.of_not_eq_true hlt))
      · exact h2 w hw

theorem foldl_cellUpdate_max_le :
    ∀ (zs : List F) (cur : F), cur ≠ F.nan → (∀ z ∈ zs, z ≠ F.nan) →
      F.le cur (zs.foldl (cellUpdate false) (cur, true)).1 = true ∧
      ∀ z ∈ zs, F.le z (zs.foldl (cellUpdate false) (cur, true)).1 = true
  | [], cur, hcur, _ => ⟨F.le_refl hcur, by simp⟩
  | z :: rest, cur, hcur, hz => by
    have hz0 : z ≠ F.nan := hz z (List.mem_cons_self z rest)
    have hzr : ∀ w ∈ rest, w ≠ F.nan := fun w hw => hz w (List.mem_cons_of_mem z hw)
    rw [List.foldl_cons, cellUpdate_hit_max]
    by_cases hlt : F.lt cur z = true
    · rw [if_pos hlt]
      obtain ⟨h1, h2⟩ := foldl_cellUpdate_max_le rest z hz0 hzr
      refine ⟨F.le_trans (F.lt_imp_le hlt) h1, ?_⟩
      intro w hw
      rcases List.mem_cons.1 hw with rfl | hw
      · exact h1
      · exact h2 w hw
    · rw [if_neg hlt]
      obtain ⟨h1, h2⟩ := foldl_cellUpdate_max_le rest cur hcur hzr
      refine ⟨h1, ?_⟩
      intro w hw
      rcases List.mem_cons.1 hw with rfl | hw
      · exact F.le_trans
          (F.not_lt_imp_le hcur hz0 (Bool.of_not_eq_true hlt)) h1
      · exact h2 w hw

/-! ## Routing: the streaming pass decomposes cell-wise -/

theorem foldl_step_cell (o : Options) :
    ∀ (ps : List (ℚ × ℚ × F)) (s : GridState) (idx : ℤ),
      ((ps.foldl (step o) s).grid idx, (ps.foldl (step o) s).hit idx) =
        (routedZ o idx ps).foldl (cellUpdate o.find_min) (s.grid idx, s.hit idx)
  | [], s, idx => rfl
  | p :: rest, s, idx => by
    rw [List.foldl_cons]
    by_cases h : cellIndexOf o p.1 p.2.1 = idx
    · have hr : routedZ o idx (p :: rest) = p.2.2 :: routedZ o idx rest := by
        simp [routedZ, h]
      rw [hr, List.foldl_cons, foldl_step_cell o rest (step o s p) idx]
      have hs : ((step o s p).grid idx, (step o s p).hit idx) =
          cellUpdate o.find_min (s.grid idx, s.hit idx) p.2.2 := by
        simp [step, h]
      rw [hs]
    · have hr : routedZ o idx (p :: rest) = routedZ o idx rest := by
        simp [routedZ, h]
      rw [hr, foldl_step_cell o rest (step o s p) idx]
      have hg : (step o s p).grid idx = s.grid idx := by
        simp [step]
        intro he
        exact absurd he.symm h
      have hh : (step o s p).hit idx = s.hit idx := by
        simp [step]
        intro he
        exact absurd he.symm h
      rw [hg, hh]

theorem runPoints_cell (o : Options) (ps : List (ℚ × ℚ × F)) (idx : ℤ) :
    ((runPoints o ps).grid idx, (runPoints o ps).hit idx) =
      cellRun o.find_min (routedZ o idx ps) :=
  foldl_step_cell o ps (initState o) idx

/-! ## Output membership -/

theorem hit_mem_outputCells (o : Options) (s : GridState) (ix iy : ℤ)
    (hx0 : 0 ≤ ix) (hx1 : ix < grid_nx o) (hy0 : 0 ≤ iy) (hy1 : iy < grid_ny o)
    (h : s.hit (ix + grid_nx o * iy) = true) :
    (ix, iy, s.grid (ix + grid_nx o * iy)) ∈ outputCells o s := by
  unfold outputCells
  rw [List.mem_flatMap]
  refine ⟨iy.toNat, ?_, ?_⟩
  · rw [List.mem_range]; omega
  · rw [List.mem_filterMap]
    refine ⟨ix.toNat, ?_, ?_⟩
    · rw [List.mem_range]; omega
    · have hxc : ((ix.toNat : ℤ)) = ix := Int.toNat_of_nonneg hx0
      have hyc : ((iy.toNat : ℤ)) = iy := Int.toNat_of_nonneg hy0
      simp only [hxc, hyc, h, if_true]

/-! ## Token-retaining fold facts -/

theorem stepTok_first (fm : Bool) (v : F) (t : String) (z : F × String) :
    stepTok fm (v, t, false) z = (z.1, z.2, true) := rfl

theorem stepTok_hit (fm : Bool) (v : F) (t : String) (z : F × String) :
    stepTok fm (v, t, true) z =
      (if (if fm then F.lt z.1 v else F.lt v z.1) then z.1 else v,
       (if (if fm then F.lt z.1 v else F.lt v z.1) then z.2 else t, true)) := by
  cases fm <;> rfl

theorem lastDeterminerTok_cons (fm : Bool) (v : F) (z : F × String)
    (rest : List (F × String)) :
    lastDeterminerTok fm v (z :: rest) =
      (match lastDeterminerTok fm
          (if (if fm then F.lt z.1 v else F.lt v z.1) then z.1 else v) rest with
       | some t => some t
       | none => if (if fm then F.lt z.1 v else F.lt v z.1) then some z.2 else none) := rfl

theorem foldl_stepTok_tok (fm : Bool) :
    ∀ (zs : List (F × String)) (v : F) (t : String),
      (zs.foldl (stepTok fm) (v, t, true)).2.1 = (lastDeterminerTok fm v zs).getD t
  | [], _, _ => rfl
  | z :: rest, v, t => by
    rw [List.foldl_cons, stepTok_hit, lastDeterminerTok_cons]
    by_cases hr : (if fm then F.lt z.1 v else F.lt v z.1) = true
    · simp only [hr, ite_true]
      rw [foldl_stepTok_tok fm rest z.1 z.2]
      cases lastDeterminerTok fm z.1 rest <;> rfl
    · simp only [Bool.of_not_eq_true hr, Bool.false_eq_true, if_false]
      rw [foldl_stepTok_tok fm rest v t]
      cases lastDeterminerTok fm v rest <;> rfl

theorem foldl_stepT_cell (o : Options) :
    ∀ (ps : List (ℚ × ℚ × F × String)) (s : TokState) (idx : ℤ),
      ((ps.foldl (stepT o) s).grid idx,
       (ps.foldl (stepT o) s).tok idx,
       (ps.foldl (stepT o) s).hitT idx) =
        (routedT o idx ps).foldl (stepTok o.find_min) (s.grid idx, s.tok idx, s.hitT idx)
  | [], s, idx => rfl
  | p :: rest, s, idx => by
    rw [List.foldl_cons]
    by_cases h : cellIndexOf o p.1 p.2.1 = idx
    · have hr : routedT o idx (p :: rest) = p.2.2 :: routedT o idx rest := by
        simp [routedT, h]
      rw [hr, List.foldl_cons, foldl_stepT_cell o rest (stepT o s p) idx]
      have hs : ((stepT o s p).grid idx, (stepT o s p).tok idx, (stepT o s p).hitT idx) =
          stepTok o.find_min (s.grid idx, s.tok idx, s.hitT idx) p.2.2 := by
        simp [stepT, h]
      rw [hs]
    · have hr : routedT o idx (p :: rest) = routedT o idx rest := by
        simp [routedT, h]
      rw [hr, foldl_stepT_cell o rest (stepT o s p) idx]
      have hg : (stepT o s p).grid idx = s.grid idx := by
        simp [stepT]
        intro he
        exact absurd he.symm h
      have ht : (stepT o s p).tok idx = s.tok idx := by
        simp [stepT]
        intro he
        exact absurd he.symm h
      have hh : (stepT o s p).hitT idx = s.hitT idx := by
        simp [stepT]
        intro he
        exact absurd he.symm h
      rw [hg, ht, hh]

/-! ## Input-line facts -/

theorem dropWhile_head_false (p : Char → Bool) :
    ∀ (l : List Char) (c : Char) (r : List Char), l.dropWhile p = c :: r → p c = false
  | [], c, r, h => by simp [List.dropWhile] at h
  | a :: t, c, r, h => by
    by_cases hp : p a = true
    · rw [List.dropWhile_cons, if_pos hp] at h
      exact dropWhile_head_false p t c r h
    · rw [List.dropWhile_cons, if_neg hp] at h
      cases h
      exact Bool.of_not_eq_true hp

theorem all_dropWhile (q p : Char → Bool) :
    ∀ l : List Char, l.all q = true → (l.dropWhile p).all q = true
  | [], h => h
  | a :: t, h => by
    rw [List.all_cons, Bool.and_eq_true] at h
    by_cases hp : p a = true
    · rw [List.dropWhile_cons, if_pos hp]
      exact all_dropWhile q p t h.2
    · rw [List.dropWhile_cons, if_neg hp]
      rw [List.all_cons, Bool.and_eq_true]
      exact ⟨h.1, h.2⟩

theorem parseNum_all_space (s : List Char) (h : s.all isSpaceC = true) :
    parseNum s = none := by
  have hdrop : s.dropWhile isSpaceC = [] := by
    rw [List.dropWhile_eq_nil_iff]
    intro a ha
    exact List.all_eq_true.1 h a ha
  unfold parseNum
  rw [hdrop]
  rfl

theorem processLine_comment (l : List Char) (h : isCommentOrBlank l = true) :
    processLine l = none := by
  unfold isCommentOrBlank at h
  cases hd : l.dropWhile (fun c => c = ' ' || c = '\t') with
  | nil => simp only [processLine, hd]
  | cons c r =>
    rw [hd] at h
    have hc : c = '\n' ∨ c = '#' := by simpa using h
    simp only [processLine, hd]
    rw [if_pos hc]

theorem processLine_all_space (l : List Char) (h : l.all isSpaceC = true) :
    processLine l = none := by
  have hall : (l.dropWhile (fun c => c = ' ' || c = '\t')).all isSpaceC = true :=
    all_dropWhile isSpaceC _ l h
  cases hd : l.dropWhile (fun c => c = ' ' || c = '\t') with
  | nil => simp only [processLine, hd]
  | cons c r =>
    rw [hd] at hall
    by_cases hc : c = '\n' ∨ c = '#'
    · simp only [processLine, hd]
      rw [if_pos hc]
    · simp only [processLine, hd]
      rw [if_neg hc, parseNum_all_space _ hall]

theorem processLine_none_step (o : Options) (s : GridState) (l : List Char)
    (h : processLine l = none) : lineStep o s l = s := by
  unfold lineStep
  rw [h]

theorem processLine_some_step (o : Options) (s : GridState) (l : List Char)
    (x y : ℚ) (z : F) (h : processLine l = some (F.fin x, F.fin y, z)) :
    lineStep o s l = step o s (x, y, z) := by
  unfold lineStep
  rw [h]

/-! ## Claim theorems -/

/-- Claim C1 (confirmed): for the end-to-end scenario — region `0..2 × 0..2`,
spacing 1, minimum mode, default Nearest-Rounded-Clamped addressing and
Strict-Improvement updating — processing the four points `(-0.49,-0.49,5)`,
`(0.5,0.5,10)`, `(2.0,2.0,9)`, `(1.49,0.49,7)` in order yields exactly the
occupied cells `(0,0,5)`, `(1,0,7)`, `(1,1,10)`, `(2,2,9)` and no others. -/
theorem C1_end_to_end_scenario :
    outputCells scenarioOpts (runPoints scenarioOpts scenarioPts) =
      [(0, 0, F.fin 5), (1, 0, F.fin 7), (1, 1, F.fin 10), (2, 2, F.fin 9)] := by
  decide

/-- Claim C5 (confirmed): for every region with `xmax > xmin`, `ymax > ymin`
and spacing `inc > 0`, the grid dimension calculator computes
`nx = round((xmax-xmin)/inc) + 1` and `ny = round((ymax-ymin)/inc) + 1` with
round-to-nearest, ties away from zero (`llround`), and both dimensions
are at least 1. -/
theorem C5_grid_dimensions (o : Options) (hx : o.xmin < o.xmax)
    (hy : o.ymin < o.ymax) (hinc : 0 < o.inc) :
    grid_nx o = llround ((o.xmax - o.xmin) / o.inc) + 1 ∧
    grid_ny o = llround ((o.ymax - o.ymin) / o.inc) + 1 ∧
    1 ≤ grid_nx o ∧ 1 ≤ grid_ny o := by
  have htx : (0 : ℚ) ≤ (o.xmax - o.xmin) / o.inc :=
    le_of_lt (div_pos (by linarith) hinc)
  have hty : (0 : ℚ) ≤ (o.ymax - o.ymin) / o.inc :=
    le_of_lt (div_pos (by linarith) hinc)
  refine ⟨?_, ?_, grid_nx_pos o hx hinc, grid_ny_pos o hy hinc⟩
  · rw [llround_of_nonneg htx]; rfl
  · rw [llround_of_nonneg hty]; rfl

/-- Witness for C5 at the scenario configuration. -/
theorem C5_grid_dimensions_witness :
    grid_nx scenarioOpts =
        llround ((scenarioOpts.xmax - scenarioOpts.xmin) / scenarioOpts.inc) + 1 ∧
    grid_ny scenarioOpts =
        llround ((scenarioOpts.ymax - scenarioOpts.ymin) / scenarioOpts.inc) + 1 ∧
    1 ≤ grid_nx scenarioOpts ∧ 1 ≤ grid_ny scenarioOpts :=
  C5_grid_dimensions scenarioOpts (by decide) (by decide) (by decide)

/-- Claim C4 (confirmed): under either clamped addressing strategy, for every
finite input point — however far outside the region — the mapped cell index
lies in `[0, nx) × [0, ny)`. -/
theorem C4_clamped_index_in_range (o : Options) (hx : o.xmin < o.xmax)
    (hy : o.ymin < o.ymax) (hinc : 0 < o.inc) (x y : ℚ) :
    0 ≤ (mapIndex o x y).1 ∧ (mapIndex o x y).1 < grid_nx o ∧
    0 ≤ (mapIndex o x y).2 ∧ (mapIndex o x y).2 < grid_ny o :=
  mapIndex_bounds o hx hy hinc x y

/-- Witness for C4 at a far out-of-region point. -/
theorem C4_clamped_index_in_range_witness :
    0 ≤ (mapIndex scenarioOpts 1000000000 (-1000000000)).1 ∧
    (mapIndex scenarioOpts 1000000000 (-1000000000)).1 < grid_nx scenarioOpts ∧
    0 ≤ (mapIndex scenarioOpts 1000000000 (-1000000000)).2 ∧
    (mapIndex scenarioOpts 1000000000 (-1000000000)).2 < grid_ny scenarioOpts :=
  C4_clamped_index_in_range scenarioOpts (by decide) (by decide) (by decide)
    1000000000 (-1000000000)

/-- Claim C2 (corrected): the Strict-Improvement rule stores the first `z`
unconditionally and sets the hit flag; a subsequent write replaces the stored
aggregate exactly when the IEEE comparison `z < current` (minimum mode) or
`z > current` (maximum mode) holds; and — amended — provided no NaN is
routed to the cell, the final stored value of a hit cell is `≤` every routed
`z` in minimum mode and `≥` every routed `z` in maximum mode.  (The claim's
unconditional monotonicity fails when a NaN is routed: see the
counterexample.) -/
theorem C2_strict_improvement_amended :
    (∀ (fm : Bool) (v z : F), cellUpdate fm (v, false) z = (z, true)) ∧
    (∀ (fm : Bool) (cur z : F), cellUpdate fm (cur, true) z =
        (if (if fm then F.lt z cur else F.lt cur z) then z else cur, true)) ∧
    (∀ (fm : Bool) (zs : List F), zs ≠ [] → (cellRun fm zs).2 = true) ∧
    (∀ zs : List F, zs ≠ [] → F.nan ∉ zs →
      (∀ z ∈ zs, F.le (cellRun true zs).1 z = true) ∧
      (∀ z ∈ zs, F.le z (cellRun false zs).1 = true)) := by
  refine ⟨cellUpdate_first, cellUpdate_hit, ?_, ?_⟩
  · intro fm zs hne
    cases zs with
    | nil => exact absurd rfl hne
    | cons z rest =>
      unfold cellRun
      rw [List.foldl_cons, cellUpdate_first]
      exact foldl_cellUpdate_true fm rest (z, true) rfl
  · intro zs hne hnan
    cases zs with
    | nil => exact absurd rfl hne
    | cons z rest =>
      have hz0 : z ≠ F.nan := fun he => hnan (he ▸ List.mem_cons_self z rest)
      have hzr : ∀ w ∈ rest, w ≠ F.nan :=
        fun w hw he => hnan (he ▸ List.mem_cons_of_mem z hw)
      constructor
      · intro w hw
        unfold cellRun
        rw [List.foldl_cons, cellUpdate_first]
        obtain ⟨h1, h2⟩ := foldl_cellUpdate_min_le rest z hz0 hzr
        rcases List.mem_cons.1 hw with rfl | hw
        · exact h1
        · exact h2 w hw
      · intro w hw
        unfold cellRun
        rw [List.foldl_cons, cellUpdate_first]
        obtain ⟨h1, h2⟩ := foldl_cellUpdate_max_le rest z hz0 hzr
        rcases List.mem_cons.1 hw with rfl | hw
        · exact h1
        · exact h2 w hw

/-- Counterexample to C2 as stated: in minimum mode, routing the sequence
`[NaN, 3]` to a cell leaves the cell hit with stored aggregate NaN, and the
stored value is not `≤ 3` — the claimed unconditional monotonicity fails. -/
theorem C2_strict_improvement_counterexample :
    (cellRun true [F.nan, F.fin 3]).2 = true ∧
    (cellRun true [F.nan, F.fin 3]).1 = F.nan ∧
    F.le (cellRun true [F.nan, F.fin 3]).1 (F.fin 3) = false := by
  decide

/-- Witness for the amended C2 at a concrete NaN-free sequence. -/
theorem C2_strict_improvement_witness :
    F.le (cellRun true [F.fin 5, F.fin 3, F.fin 4]).1 (F.fin 5) = true :=
  (C2_strict_improvement_amended.2.2.2 [F.fin 5, F.fin 3, F.fin 4]
    (by decide) (by decide)).1 (F.fin 5) (by decide)

/-- Claim C3 (corrected): for a point whose fractional cell coordinate along
an axis is exactly `0.5` (offset `t = k + 1/2` from the origin, with both
neighbouring nodes `k` and `k + 1` inside the grid), Nearest-Rounded-Clamped
maps it to the higher-index node `k + 1` and Nearest-Tie-Low-Clamped to the
lower-index node `k`; but — amended — Gridline-Registration-Reject rounds the
tie to the *even*-index node (`lrint`), which is the lower node only when `k`
is even.  (The claim said the rejection strategy always takes the lower node:
see the counterexample.) -/
theorem C3_half_tie_amended (o : Options) (x : ℚ) (k : ℤ) (hk : 0 ≤ k)
    (hkn : k + 1 < grid_nx o) (ht : (x - o.xmin) / o.inc = (k : ℚ) + 1/2) :
    clampIdx (llround ((x - o.xmin) / o.inc)) (grid_nx o) = k + 1 ∧
    clampIdx (tclAxisIndex ((x - o.xmin) / o.inc)) (grid_nx o) = k ∧
    lrint ((x - o.xmin) / o.inc) = (if 2 ∣ k then k else k + 1) := by
  rw [ht]
  have hkq : (0 : ℚ) ≤ (k : ℚ) := Int.cast_nonneg.2 hk
  have hfloor1 : ⌊(k : ℚ) + 1/2 + 1/2⌋ = k + 1 := by
    have he : (k : ℚ) + 1/2 + 1/2 = ((k + 1 : ℤ) : ℚ) := by push_cast; ring
    rw [he, Int.floor_intCast]
  have hfloor2 : ⌊(k : ℚ) + 1/2⌋ = k := by
    rw [add_comm, Int.floor_add_int]
    norm_num
  refine ⟨?_, ?_, ?_⟩
  · rw [llround_of_nonneg (by linarith), hfloor1]
    exact clampIdx_of_range (by omega) hkn
  · unfold tclAxisIndex
    rw [hfloor2]
    have hcond : ¬((k : ℚ) + 1/2 - (k : ℚ) > 1/2 + 1/10^12) := by norm_num
    rw [if_neg hcond]
    exact clampIdx_of_range hk (by omega)
  · unfold lrint
    rw [hfloor2]
    show (if (k : ℚ) + 1/2 - (k : ℚ) < 1/2 then k
          else if 1/2 < (k : ℚ) + 1/2 - (k : ℚ) then k + 1
          else if 2 ∣ k then k else k + 1) = if 2 ∣ k then k else k + 1
    have hfr : (k : ℚ) + 1/2 - (k : ℚ) = 1/2 := by ring
    rw [hfr, if_neg (lt_irrefl _), if_neg (lt_irrefl _)]

/-- Counterexample to C3 as stated: for the half-tie point `x = 1.5` on the
`0..4` grid (neighbouring nodes 1 and 2), the gridline-registration mapper
produces column 2 — the higher-index node — not the lower node 1 the claim
asserts (the same holds under the spec's own round-half-away formula). -/
theorem C3_half_tie_counterexample :
    gmtMap wideOpts (3/2) 0 = some (2, 4) ∧
    gmtMap wideOpts (3/2) 0 ≠ some (1, 4) ∧
    gmtMapHalfAway wideOpts (3/2) 0 = some (2, 4) := by
  decide

/-- Witness for the amended C3 at `x = 1.5` on the `0..4` grid (`k = 1`). -/
theorem C3_half_tie_witness :
    clampIdx (llround ((3/2 - wideOpts.xmin) / wideOpts.inc)) (grid_nx wideOpts) = 1 + 1 ∧
    clampIdx (tclAxisIndex ((3/2 - wideOpts.xmin) / wideOpts.inc)) (grid_nx wideOpts) = 1 ∧
    lrint ((3/2 - wideOpts.xmin) / wideOpts.inc) = (if 2 ∣ (1 : ℤ) then 1 else 1 + 1) :=
  C3_half_tie_amended wideOpts (3/2) 1 (by decide) (by decide) (by decide)

/-- Claim C6 (corrected; the `--gmtbin` mode is modelled from the spec and
the repository's README/tests, since `src/blockminmax.c` does not implement
it): under Gridline-Registration-Reject a point is accepted exactly when
`col = lrint((x-xmin)/inc)` and `row = (ny-1) - lrint((y-ymin)/inc)` both lie
in range — amended from the claim's `round_half_away_from_zero` to `lrint`
(round half to even), which is what the repository's own reference output
pins down — and indices are not clamped: a dropped point leaves the state
untouched, contributes to no cell's aggregate, and the output is exactly the
output of the stream without that point. -/
theorem C6_gridline_reject_amended :
    (∀ (o : Options) (x y : ℚ) (col row : ℤ),
      gmtMap o x y = some (col, row) ↔
        (col = lrint ((x - o.xmin) / o.inc) ∧
         row = (grid_ny o - 1) - lrint ((y - o.ymin) / o.inc) ∧
         0 ≤ col ∧ col < grid_nx o ∧ 0 ≤ row ∧ row < grid_ny o)) ∧
    (∀ (o : Options) (p : ℚ × ℚ × F) (s : GridState),
      gmtMap o p.1 p.2.1 = none → gmtStep o s p = s) ∧
    (∀ (o : Options) (p : ℚ × ℚ × F) (pre post : List (ℚ × ℚ × F)),
      gmtMap o p.1 p.2.1 = none →
        outputGmt o (runGmt o (pre ++ p :: post)) =
          outputGmt o (runGmt o (pre ++ post))) := by
  have hstep : ∀ (o : Options) (p : ℚ × ℚ × F) (s : GridState),
      gmtMap o p.1 p.2.1 = none → gmtStep o s p = s := by
    intro o p s h
    unfold gmtStep
    rw [h]
  refine ⟨?_, hstep, ?_⟩
  · intro o x y col row
    constructor
    · intro hm
      simp only [gmtMap] at hm
      split_ifs at hm with h
      rw [Option.some.injEq, Prod.mk.injEq] at hm
      obtain ⟨h5, h6⟩ := hm
      subst h5
      subst h6
      exact ⟨rfl, rfl, h.1, h.2.1, h.2.2.1, h.2.2.2⟩
    · rintro ⟨rfl, rfl, h1, h2, h3, h4⟩
      simp only [gmtMap]
      rw [if_pos ⟨h1, h2, h3, h4⟩]
  · intro o p pre post h
    unfold runGmt
    rw [List.foldl_append, List.foldl_append, List.foldl_cons,
        hstep o p (pre.foldl (gmtStep o) (initState o)) h]

/-- Counterexample to C6 as stated: running the gridline pipeline with the
claim's `round_half_away_from_zero` on the repository's own test input does
not reproduce the reference output `ref_gmt.min` of
`src/test_blockminmax.sh` (the half-tie point `(0.5, 0.5)` moves to the
wrong cell), while the `lrint` (ties-to-even) version reproduces it
exactly. -/
theorem C6_gridline_reject_counterexample :
    (outputGmt scenarioOpts (runGmtHalfAway scenarioOpts scenarioPts)).isPerm
        refGmtTriples = false ∧
    (outputGmt scenarioOpts (runGmt scenarioOpts scenarioPts)).isPerm
        refGmtTriples = true := by
  decide

/-- Witness for the amended C6: prepending the out-of-range point `(5, 5, 1)`
to the scenario stream leaves the gridline output unchanged. -/
theorem C6_gridline_reject_witness :
    outputGmt scenarioOpts (runGmt scenarioOpts ((5, 5, F.fin 1) :: scenarioPts)) =
      outputGmt scenarioOpts (runGmt scenarioOpts scenarioPts) :=
  C6_gridline_reject_amended.2.2 scenarioOpts (5, 5, F.fin 1) [] scenarioPts (by decide)

/-- Claim C8 (corrected): under the legacy Tcl update rule, in minimum mode a
write replaces the stored aggregate exactly when `z < current` or
`z > current` — i.e. whenever the values differ, so ties are ignored and the
stored value is the last *distinct* value seen; in maximum mode a write
replaces the stored aggregate exactly when `z > current`, so it is rejected
whenever `z ≤ current` — including ties, not only when `z` is strictly
smaller as the claim stated. -/
theorem C8_legacy_last_writer_amended :
    (∀ cur z : Tok, tclCellUpdate true cur z =
        if z.val < cur.val ∨ cur.val < z.val then z else cur) ∧
    (∀ cur z : Tok, tclCellUpdate false cur z =
        if cur.val < z.val then z else cur) := by
  constructor
  · intro cur z
    unfold tclCellUpdate
    rcases lt_trichotomy z.val cur.val with h | h | h
    · rw [if_pos ⟨rfl, h⟩, if_pos (Or.inl h)]
    · rw [if_neg (fun hc => absurd h (ne_of_lt hc.2)),
          if_neg (fun hc => absurd h.symm (ne_of_lt hc)),
          if_neg (fun hc => hc.elim (fun hx => absurd h (ne_of_lt hx))
                                    (fun hx => absurd h.symm (ne_of_lt hx)))]
    · rw [if_neg (fun hc => lt_asymm h hc.2), if_pos h, if_pos (Or.inr h)]
  · intro cur z
    unfold tclCellUpdate
    rw [if_neg fun hc => absurd hc.1 (by decide)]

/-- Counterexample to C8 as stated: with the stored token `"5"` (value 5) and
an incoming token `"5.0"` (also value 5), the legacy rule keeps `"5"` in both
modes: in maximum mode the tie is rejected although `z` is not strictly
smaller, contradicting "rejected only when z is strictly smaller"; in
minimum mode the tie does not overwrite, contradicting "ties ... overwrite". -/
theorem C8_legacy_last_writer_counterexample :
    tclCellUpdate false ⟨"5", 5⟩ ⟨"5.0", 5⟩ = ⟨"5", 5⟩ ∧
    tclCellUpdate true ⟨"5", 5⟩ ⟨"5.0", 5⟩ = ⟨"5", 5⟩ ∧
    ¬ ((5 : ℚ) < 5) := by
  decide

/-- Claim C9 (confirmed): blank lines and lines whose first non-whitespace
character is `#` are skipped; whitespace-only lines are skipped; a line whose
first three tokens do not each parse as a number is skipped silently — the
step function is total and leaves the state untouched, so the line
contributes to no cell and raises no error; every line that parses to three
numbers with finite coordinates is aggregated through the cell update. -/
theorem C9_malformed_lines_skipped :
    (∀ l : List Char, isCommentOrBlank l = true → processLine l = none) ∧
    (∀ l : List Char, l.all isSpaceC = true → processLine l = none) ∧
    (∀ (o : Options) (s : GridState) (l : List Char),
      processLine l = none → lineStep o s l = s) ∧
    (∀ (o : Options) (s : GridState) (l : List Char) (x y : ℚ) (z : F),
      processLine l = some (F.fin x, F.fin y, z) → lineStep o s l = step o s (x, y, z)) :=
  ⟨processLine_comment, processLine_all_space,
   fun o s l h => processLine_none_step o s l h,
   fun o s l x y z h => processLine_some_step o s l x y z h⟩

/-- Witness for C9 on concrete lines: a comment line and a malformed line
are skipped with no state change. -/
theorem C9_malformed_lines_skipped_witness :
    processLine "   # comment".toList = none ∧
    processLine "1 2 abc".toList = none ∧
    lineStep scenarioOpts (initState scenarioOpts) "1 2 abc".toList =
      initState scenarioOpts :=
  ⟨C9_malformed_lines_skipped.1 _ (by decide), by decide,
   C9_malformed_lines_skipped.2.2.1 scenarioOpts (initState scenarioOpts) _ (by decide)⟩

/-- Claim C10 (confirmed): if the first point routed to a cell carries
`z = NaN`, the cell's stored aggregate is NaN and stays NaN for the rest of
the run (in either mode every comparison against NaN is false, so no later
value replaces it), and the cell is still emitted in the output with
`z = NaN`. -/
theorem C10_nan_poisons_cell (o : Options) (hx : o.xmin < o.xmax)
    (hy : o.ymin < o.ymax) (hinc : 0 < o.inc) (x y : ℚ)
    (ps : List (ℚ × ℚ × F)) (zs : List F)
    (h : routedZ o (cellIndexOf o x y) ps = F.nan :: zs) :
    (runPoints o ps).grid (cellIndexOf o x y) = F.nan ∧
    (runPoints o ps).hit (cellIndexOf o x y) = true ∧
    ((mapIndex o x y).1, (mapIndex o x y).2, F.nan) ∈
      outputCells o (runPoints o ps) := by
  have hcell := runPoints_cell o ps (cellIndexOf o x y)
  rw [h] at hcell
  have hrun : cellRun o.find_min (F.nan :: zs) = (F.nan, true) := by
    unfold cellRun
    rw [List.foldl_cons, cellUpdate_first, foldl_cellUpdate_nan]
  rw [hrun] at hcell
  have hg : (runPoints o ps).grid (cellIndexOf o x y) = F.nan :=
    congrArg Prod.fst hcell
  have hh : (runPoints o ps).hit (cellIndexOf o x y) = true :=
    congrArg Prod.snd hcell
  refine ⟨hg, hh, ?_⟩
  obtain ⟨b1, b2, b3, b4⟩ := mapIndex_bounds o hx hy hinc x y
  have hidx : cellIndexOf o x y =
      (mapIndex o x y).1 + grid_nx o * (mapIndex o x y).2 := rfl
  have hmem := hit_mem_outputCells o (runPoints o ps)
    (mapIndex o x y).1 (mapIndex o x y).2 b1 b2 b3 b4 (by rw [← hidx]; exact hh)
  rw [← hidx, hg] at hmem
  exact hmem

/-- Witness for C10: the cell at the origin receives NaN first and then 1,
and is emitted as NaN. -/
theorem C10_nan_poisons_cell_witness :
    ((mapIndex scenarioOpts 0 0).1, (mapIndex scenarioOpts 0 0).2, F.nan) ∈
      outputCells scenarioOpts
        (runPoints scenarioOpts [(0, 0, F.nan), (0, 0, F.fin 1)]) :=
  (C10_nan_poisons_cell scenarioOpts (by decide) (by decide) (by decide) 0 0
    [(0, 0, F.nan), (0, 0, F.fin 1)] [F.fin 1] (by decide)).2.2

/-! ## Formatting facts -/

theorem natDigitsAux_lt : ∀ (fuel m : ℕ), ∀ d ∈ natDigitsAux fuel m, d < 10
  | 0, _, d, hd => by simp [natDigitsAux] at hd
  | fuel + 1, 0, d, hd => by simp [natDigitsAux] at hd
  | fuel + 1, m + 1, d, hd => by
    rw [natDigitsAux] at hd
    rcases List.mem_cons.1 hd with rfl | hd
    · exact Nat.mod_lt _ (by norm_num)
    · exact natDigitsAux_lt fuel ((m + 1) / 10) d hd

theorem natDigits_lt (n : ℕ) : ∀ d ∈ natDigits n, d < 10 :=
  natDigitsAux_lt n n

theorem digitChar_ne_dot {d : ℕ} (h : d < 10) : digitChar d ≠ '.' := by
  interval_cases d <;> decide

theorem digitChar_isDigit {d : ℕ} (h : d < 10) : (digitChar d).isDigit = true := by
  interval_cases d <;> decide

theorem dot_not_mem_natStr (n : ℕ) : '.' ∉ (natStr n).toList := by
  unfold natStr
  split_ifs with h
  · decide
  · intro hmem
    have hmem' : '.' ∈ ((natDigits n).map digitChar).reverse := hmem
    rw [List.mem_reverse, List.mem_map] at hmem'
    obtain ⟨d, hd, hdc⟩ := hmem'
    exact digitChar_ne_dot (natDigits_lt n d hd) hdc

theorem foldl_stepTok_true (fm : Bool) :
    ∀ (zs : List (F × String)) (c : F × String × Bool), c.2.2 = true →
      (zs.foldl (stepTok fm) c).2.2 = true
  | [], _, h => h
  | _ :: rest, c, _ => foldl_stepTok_true fm rest (stepTok fm c _) rfl

/-- Claim C7 (confirmed; the `--tclfmt` mode is modelled from the spec,
since `src/blockminmax.c` does not implement it): every legacy-formatted
output line is `fmt1 x ++ " " ++ fmt1 y ++ " " ++ tok` for an occupied cell,
where `fmt1` renders exactly one fractional digit (a single digit after the
unique decimal point) and `tok` is the verbatim `z` token of the point that
last determined the stored aggregate — the token carried through the
aggregation equals the independently computed last-determining write's
token, not a re-serialization of the parsed value. -/
theorem C7_legacy_formatting :
    (∀ q : ℚ, ∃ (a : String) (d : Char),
        fmt1 q = a ++ "." ++ String.mk [d] ∧ d.isDigit = true ∧ '.' ∉ a.toList) ∧
    (∀ (o : Options) (s : TokState) (line : String), line ∈ legacyOutput o s →
        ∃ ix iy : ℕ,
          s.hitT ((ix : ℤ) + grid_nx o * (iy : ℤ)) = true ∧
          line = fmt1 (o.xmin + (ix : ℚ) * o.inc) ++ " " ++
                 fmt1 (o.ymin + (iy : ℚ) * o.inc) ++ " " ++
                 s.tok ((ix : ℤ) + grid_nx o * (iy : ℤ))) ∧
    (∀ (o : Options) (ps : List (ℚ × ℚ × F × String)) (idx : ℤ)
        (z : F × String) (zs : List (F × String)),
        routedT o idx ps = z :: zs →
        (runPointsT o ps).hitT idx = true ∧
        (runPointsT o ps).tok idx =
          (lastDeterminerTok o.find_min z.1 zs).getD z.2) := by
  refine ⟨?_, ?_, ?_⟩
  · intro q
    refine ⟨(if llround (q * 10) < 0 then "-" else "") ++
        natStr ((llround (q * 10)).natAbs / 10),
        digitChar ((llround (q * 10)).natAbs % 10), rfl,
        digitChar_isDigit (Nat.mod_lt _ (by norm_num)), ?_⟩
    show '.' ∉ ((if llround (q * 10) < 0 then "-" else "").toList ++
        (natStr ((llround (q * 10)).natAbs / 10)).toList)
    intro hmem
    rcases List.mem_append.1 hmem with hm | hm
    · split_ifs at hm <;> simp [String.toList] at hm
    · exact dot_not_mem_natStr _ hm
  · intro o s line hline
    unfold legacyOutput at hline
    rw [List.mem_flatMap] at hline
    obtain ⟨iy, hiy, hline⟩ := hline
    rw [List.mem_filterMap] at hline
    obtain ⟨ix, hix, hfn⟩ := hline
    dsimp only at hfn
    by_cases h : s.hitT ((ix : ℤ) + grid_nx o * (iy : ℤ)) = true
    · refine ⟨ix, iy, h, ?_⟩
      rw [if_pos h, Option.some.injEq] at hfn
      exact hfn.symm
    · rw [if_neg h] at hfn
      exact absurd hfn (by simp)
  · intro o ps idx z zs h
    have hcell := foldl_stepT_cell o ps (initTokState o) idx
    have e1 : (initTokState o).grid idx = presetF o.find_min := rfl
    have e2 : (initTokState o).tok idx = "" := rfl
    have e3 : (initTokState o).hitT idx = false := rfl
    rw [e1, e2, e3, h, List.foldl_cons, stepTok_first] at hcell
    constructor
    · show (ps.foldl (stepT o) (initTokState o)).hitT idx = true
      have hproj := congrArg (fun t => t.2.2) hcell
      simp only at hproj
      rw [hproj]
      exact foldl_stepTok_true o.find_min zs (z.1, z.2, true) rfl
    · show (ps.foldl (stepT o) (initTokState o)).tok idx =
        (lastDeterminerTok o.find_min z.1 zs).getD z.2
      have hproj := congrArg (fun t => t.2.1) hcell
      simp only at hproj
      rw [hproj]
      exact foldl_stepTok_tok o.find_min zs z.1 z.2

/-- Witness for C7: routing `(5, "5.00")`, `(3, "3.0")`, `(4, "4.25")` to the
origin cell in minimum mode leaves the verbatim token `"3.0"` of the winning
write. -/
theorem C7_legacy_formatting_witness :
    ((runPointsT scenarioOpts
        [(0, 0, F.fin 5, "5.00"), (0, 0, F.fin 3, "3.0"), (0, 0, F.fin 4, "4.25")]).tok
      (cellIndexOf scenarioOpts 0 0) =
      (lastDeterminerTok scenarioOpts.find_min (F.fin 5)
        [(F.fin 3, "3.0"), (F.fin 4, "4.25")]).getD "5.00") ∧
    (lastDeterminerTok scenarioOpts.find_min (F.fin 5)
        [(F.fin 3, "3.0"), (F.fin 4, "4.25")]).getD "5.00" = "3.0" :=
  ⟨(C7_legacy_formatting.2.2 scenarioOpts
      [(0, 0, F.fin 5, "5.00"), (0, 0, F.fin 3, "3.0"), (0, 0, F.fin 4, "4.25")]
      (cellIndexOf scenarioOpts 0 0) (F.fin 5, "5.00")
      [(F.fin 3, "3.0"), (F.fin 4, "4.25")] (by decide)).2,
   by decide⟩
